import Mathlib

/-!
Verification of the DGL socket communicator
(`src/rpc/network/socket_communicator.cc`).

The development shallowly embeds the transport's code: the framing codec
(`SendCore`, `RecvDataSize`, `RecvData`), the sender (`AddReceiver`,
`Connect`, `Send`, `SendLoop`) and the receiver (`Wait`, `Recv`,
`RecvLoop`).  Socket I/O is abstracted as an oracle: a list of events,
each event being the return value of one `Send`/`Receive` call on the
raw socket, with the byte stream threaded explicitly.  Collaborators
that are declared elsewhere in the repository (the message queue, the
semaphore, `SplitStringUsing`, the `RecvContext` field defaults) are
modelled from the specification's description of their boundary, and
are marked as such in their doc comments.  `LOG(FATAL)` / failed
`CHECK` conditions are modelled as dedicated outcome constructors,
since they terminate the process.  C++ undefined behaviour that the
code can reach (modulo by zero, indexing a missing map entry) is also
surfaced as a dedicated outcome constructor.
-/

namespace DglSocket

/-! ### Bytes and the 8-byte length field -/

/-- The eight bytes of an `int64_t` as laid out in memory
(little-endian two's complement, the layout shared by both ends of the
wire per the spec's wire-protocol section). -/
def int64Bytes (v : Int) : List Nat :=
  (List.range 8).map (fun i => ((v.emod (2 ^ 64)).toNat / 256 ^ i) % 256)

/-- Decode the first eight bytes of a buffer as an `int64_t`
(little-endian two's complement). -/
def decodeInt64 (bs : List Nat) : Int :=
  let n : Nat := (bs.take 8).foldr (fun b acc => acc * 256 + b % 256) 0
  if n < 2 ^ 63 then (n : Int) else (n : Int) - 2 ^ 64

/-! ### Receive-side socket oracle

One `RecvEvent` is the outcome of one `TCPSocket::Receive` call:
`RecvEvent.nothing` models the non-blocking socket returning `-1`
("no data pending"), `RecvEvent.got t` models the socket delivering
`t` bytes (clamped to the requested maximum, since the socket never
returns more than asked).  Delivered bytes are taken off an explicit
`wire` stream. -/

inductive RecvEvent where
  | nothing
  | got (t : Nat)
deriving DecidableEq

/-- Result of `RecvDataSize`: `notReady` is the early `return -1` taken
when the very first read attempt yields nothing, `value acc` is normal
termination with the eight accumulated header bytes `acc`, and `stuck`
marks the event list running out while the loop would still be
retrying (the loop in the code blocks in that situation). -/
inductive RDSRun where
  | notReady
  | stuck (acc : List Nat)
  | value (acc : List Nat)
deriving DecidableEq

/-- Embedding of `RecvDataSize` (socket_communicator.cc:313-331): the
loop accumulates exactly eight bytes across read attempts; a `-1` read
result aborts with `-1` only while no byte has been accumulated, and is
otherwise retried (`continue`).  Returns the run outcome together with
the un-consumed remainder of the wire stream. -/
def recvDataSizeAux : List RecvEvent → List Nat → List Nat → RDSRun × List Nat
  | [], wire, acc =>
      if 8 ≤ acc.length then (.value acc, wire) else (.stuck acc, wire)
  | .nothing :: rest, wire, acc =>
      if 8 ≤ acc.length then (.value acc, wire)
      else if acc.length = 0 then (.notReady, wire)
      else recvDataSizeAux rest wire acc
  | .got t :: rest, wire, acc =>
      if 8 ≤ acc.length then (.value acc, wire)
      else recvDataSizeAux rest (wire.drop (min t (8 - acc.length)))
        (acc ++ wire.take (min t (8 - acc.length)))

/-- `RecvDataSize` on a fresh call (`received_bytes = 0`). -/
def recvDataSize (events : List RecvEvent) (wire : List Nat) : RDSRun × List Nat :=
  recvDataSizeAux events wire []

/-- Embedding of `RecvData` (socket_communicator.cc:333-344): drain up
to `dataSize - receivedBytes` further payload bytes into the buffer,
returning on the first `-1` read result.  Returns the updated buffer,
updated `received_bytes`, and remaining wire. -/
def recvDataAux : List RecvEvent → List Nat → Int → List Nat → Int →
    List Nat × Int × List Nat
  | [], wire, _, buf, recvd => (buf, recvd, wire)
  | .nothing :: _, wire, _, buf, recvd => (buf, recvd, wire)
  | .got t :: rest, wire, need, buf, recvd =>
      if recvd < need then
        recvDataAux rest (wire.drop (min t (need - recvd).toNat)) need
          (buf ++ wire.take (min t (need - recvd).toNat))
          (recvd + (wire.take (min t (need - recvd).toNat)).length)
      else (buf, recvd, wire)

/-- Number of read attempts in an event list that delivered data. -/
def countGot (events : List RecvEvent) : Nat :=
  (events.filter (fun e => match e with | .got _ => true | .nothing => false)).length

/-- A well-formed receive oracle: every successful read delivers at
least one byte (the collaborator contract: the non-blocking socket
reports "no data" as `-1`, never as a zero-byte read). -/
def wfRecvEvents (events : List RecvEvent) : Bool :=
  events.all (fun e => match e with | .got t => t != 0 | .nothing => true)

/-! ### Send-side socket oracle and `SendCore` -/

/-- Outcome of one `TCPSocket::Send` call: `err` models the socket
returning `-1`, `sent t` models it accepting `t` bytes (clamped to the
requested maximum). -/
inductive SendEvent where
  | err
  | sent (t : Nat)
deriving DecidableEq

/-- One observable action of `SendCore`: writing a chunk of bytes to
the socket, or invoking the message's deallocator callback. -/
inductive Act where
  | write (bs : List Nat)
  | dealloc
deriving DecidableEq

/-- Bytes carried by one action. -/
def actBytes : Act → List Nat
  | .write bs => bs
  | .dealloc => []

/-- All bytes written to the socket by a trace of actions, in order. -/
def writtenBytes (acts : List Act) : List Nat :=
  (acts.map actBytes).flatten

/-- Outcome of one retry-until-written phase of `SendCore`:
`fatalStop` models the `CHECK_NE(tmp, -1)` aborting the process,
`starved` marks the event list running out with `pending` bytes still
unwritten (the loop in the code blocks), `done` is completion with the
un-consumed events. -/
inductive PhaseOut where
  | fatalStop (acts : List Act)
  | starved (acts : List Act) (pending : List Nat)
  | done (acts : List Act) (rest : List SendEvent)
deriving DecidableEq

/-- One `while (sent_bytes < total)` phase of `SendCore`
(socket_communicator.cc:148-155 and 158-163): repeatedly offer the
unwritten suffix to the socket; `-1` is fatal, partial writes are
retried until nothing is pending. -/
def sendBytesLoop : List SendEvent → List Nat → PhaseOut
  | evs, [] => .done [] evs
  | [], p :: ps => .starved [] (p :: ps)
  | .err :: _, _ :: _ => .fatalStop []
  | .sent t :: evs, p :: ps =>
      match sendBytesLoop evs ((p :: ps).drop t) with
      | .fatalStop a => .fatalStop (.write ((p :: ps).take t) :: a)
      | .starved a q => .starved (.write ((p :: ps).take t) :: a) q
      | .done a r => .done (.write ((p :: ps).take t) :: a) r

/-- Outcome of a whole `SendCore` call. -/
inductive SendCoreOut where
  | fatalStop (acts : List Act)
  | starved (acts : List Act)
  | ok (acts : List Act)
deriving DecidableEq

/-- Embedding of `SendCore` (socket_communicator.cc:144-168): write the
eight bytes of `msg.size` first, then the `msg.size` payload bytes,
each phase retried against partial writes; afterwards invoke the
deallocator when it is non-null. -/
def sendCore (size : Int) (data : List Nat) (hasDealloc : Bool)
    (events : List SendEvent) : SendCoreOut :=
  match sendBytesLoop events (int64Bytes size) with
  | .fatalStop a => .fatalStop a
  | .starved a _ => .starved a
  | .done a r =>
    match sendBytesLoop r (data.take size.toNat) with
    | .fatalStop b => .fatalStop (a ++ b)
    | .starved b _ => .starved (a ++ b)
    | .done b _ => .ok (a ++ b ++ (if hasDealloc then [Act.dealloc] else []))

/-! ### `SendLoop` -/

/-- A message as tagged by `SocketSender::Send`: destination id, the
declared size, and the payload buffer. -/
structure SMsg where
  receiverId : Nat
  size : Int
  data : List Nat
deriving DecidableEq

/-- One result of the blocking `queue->Remove(&msg)` in `SendLoop`:
either a removed message, or the terminal `QUEUE_CLOSE` signal. -/
inductive SLEvent where
  | msg (m : SMsg)
  | close
deriving DecidableEq

/-- How a `SendLoop` run ended: normal termination after the
end-of-stream broadcast, a dereference of the null socket that
`sockets[msg.receiver_id]` default-constructs for an unknown id
(undefined behaviour in the code), or the event list running out while
the loop would still be blocking on `Remove`. -/
inductive SLEnd where
  | terminated
  | nullSocketCrash (rid : Nat)
  | outOfEvents
deriving DecidableEq

/-- Embedding of `SocketSender::SendLoop`
(socket_communicator.cc:170-185).  `socks` are the ids of the sockets
owned by this shard.  The trace records, per `SendCore` call, the
destination socket id, the frame's length field, and the payload bytes
written after the length field. -/
def sendLoop (socks : List Nat) : List SLEvent → List (Nat × Int × List Nat) × SLEnd
  | [] => ([], .outOfEvents)
  | .close :: _ => (socks.map (fun s => (s, (0 : Int), ([] : List Nat))), .terminated)
  | .msg m :: evs =>
      if socks.contains m.receiverId then
        let r := sendLoop socks evs
        ((m.receiverId, m.size, m.data.take m.size.toNat) :: r.1, r.2)
      else ([], .nullSocketCrash m.receiverId)

/-! ### Sender state, `Connect` sharding, `Send` -/

/-- Shard count fixed by `SocketSender::Connect`
(socket_communicator.cc:60-62): the configured `max_thread_count_` is
replaced by the receiver count when it is `0` or exceeds it. -/
def connectShardCount (cfg n : Nat) : Nat :=
  if cfg = 0 ∨ cfg > n then n else cfg

/-- Socket-ownership shard chosen in `SocketSender::Connect`
(socket_communicator.cc:66): `receiver_id % max_thread_count_`. -/
def connectSocketShard (recvId n : Nat) : Nat := recvId % n

/-- Queue shard chosen in `SocketSender::Send`
(socket_communicator.cc:112): `recv_id % max_thread_count_`. -/
def sendQueueShard (recvId n : Nat) : Nat := recvId % n

/-- Shard assigned to an accepted sender in `SocketReceiver::Wait`
(socket_communicator.cc:235): `i % max_thread_count_`. -/
def receiverThreadShard (senderIdx n : Nat) : Nat := senderIdx % n

/-- Modelled from the spec: the construction-time configuration
(`socket_communicator.h`, not under `src/`) defaults `maxThreadCount`
to `0`, meaning "one worker thread per peer". -/
def defaultMaxThreadCount : Nat := 0

/-- The sender-side state that `Send` can observe: the ids registered
through `AddReceiver`, and the current `max_thread_count_` (equal to
`defaultMaxThreadCount` before `Connect`, and to
`connectShardCount cfg receiverCount` after a successful `Connect`). -/
structure SenderState where
  receiverIds : List Nat
  maxThreadCount : Nat
deriving DecidableEq

/-- Outcome of `SocketSender::Send`: the three failed-`CHECK` aborts,
the undefined modulo by zero reached when `max_thread_count_ = 0`
(`Send` before `Connect`, or after a `Connect` with no receivers), or
the message being enqueued on a shard queue tagged with the given
receiver id. -/
inductive SendOutcome where
  | fatalNullData
  | fatalSizeNonPos
  | fatalNegId
  | modZeroUB
  | enqueued (shard : Nat) (taggedReceiver : Int)
deriving DecidableEq

/-- Embedding of `SocketSender::Send` (socket_communicator.cc:106-114):
`CHECK_NOTNULL(msg.data)`, `CHECK_GT(msg.size, 0)`,
`CHECK_GE(recv_id, 0)`, then enqueue on
`msg_queue_[recv_id % max_thread_count_]` with
`msg.receiver_id = recv_id`.  The registered-receiver set is part of
the state but, as in the code, is never consulted. -/
def socketSenderSend (st : SenderState) (dataIsNull : Bool) (size : Int)
    (recvId : Int) : SendOutcome :=
  if dataIsNull then .fatalNullData
  else if ¬size > 0 then .fatalSizeNonPos
  else if ¬recvId ≥ 0 then .fatalNegId
  else if st.maxThreadCount = 0 then .modZeroUB
  else .enqueued (sendQueueShard recvId.toNat st.maxThreadCount) recvId

/-! ### Address parsing (`AddReceiver` / `Wait`) -/

/-- Modelled from the spec: `SplitStringUsing`
(`src/rpc/network/common.cc`, not under `src/`) splits a string on a
delimiter, skipping empty pieces; the spec describes the address as its
segments delimited by the double slash, with the second segment then
split once on the colon.  Fuel-driven so that the definition is structural; one
character is consumed per step, so `fuel = input length` suffices. -/
def splitFullAux (delim : List Char) : Nat → List Char → List Char → List (List Char)
  | 0, s, cur => [cur.reverse ++ s]
  | _ + 1, [], cur => [cur.reverse]
  | fuel + 1, c :: rest, cur =>
      if delim.isPrefixOf (c :: rest) then
        cur.reverse :: splitFullAux delim fuel ((c :: rest).drop delim.length) []
      else splitFullAux delim fuel rest (c :: cur)

/-- Split on a delimiter, dropping empty pieces. -/
def splitFull (delim s : List Char) : List (List Char) :=
  (splitFullAux delim s.length s []).filter (fun p => ¬p.isEmpty)

/-- `std::stoi` on the port substring, modelled by its C++ standard
semantics: skip leading whitespace, an optional sign, then a non-empty
run of decimal digits (further characters are ignored); `none` models
the `std::invalid_argument` / `std::out_of_range` exceptions (no
digits, or a value outside `int`'s range), which the code does not
catch. -/
def stoiModel (s : List Char) : Option Int :=
  let t := s.dropWhile (fun c => c.isWhitespace)
  let signed : Int × List Char :=
    match t with
    | '-' :: r => (-1, r)
    | '+' :: r => (1, r)
    | r => (1, r)
  let digits := signed.2.takeWhile (fun c => c.isDigit)
  if digits.isEmpty then none
  else
    let v : Int := signed.1 * (digits.foldl (fun a c => a * 10 + (c.toNat - '0'.toNat)) 0 : Nat)
    if v < -(2 ^ 31) ∨ v > 2 ^ 31 - 1 then none else some v

/-- The literal `"socket:"`. -/
def socketScheme : List Char := ['s', 'o', 'c', 'k', 'e', 't', ':']

/-- Outcome of the address-parsing prologue shared by
`SocketSender::AddReceiver` (socket_communicator.cc:35-53) and
`SocketReceiver::Wait` (socket_communicator.cc:192-209):
`fatalFormat` is the descriptive `LOG(FATAL)` naming the expected
format; `stoiThrow` is an uncaught exception out of `std::stoi` on the
port; `ubIndex` is the out-of-bounds `substring[0]` read performed when
the split produces no pieces (undefined behaviour); `ok` carries the
host and the parsed port. -/
inductive ParseOutcome where
  | fatalFormat
  | stoiThrow
  | ubIndex
  | ok (ip : List Char) (port : Int)
deriving DecidableEq

/-- Embedding of the shared address-parsing code: split on `"//"`,
check `substring[0] == "socket:"` and `substring.size() == 2`, split
the second piece on `":"`, check two pieces, then `std::stoi` the
second. -/
def parseAddr (addr : List Char) : ParseOutcome :=
  match splitFull ['/', '/'] addr with
  | [] => .ubIndex
  | s0 :: ss =>
    if s0 ≠ socketScheme ∨ (s0 :: ss).length ≠ 2 then .fatalFormat
    else
      match splitFull [':'] ((s0 :: ss).getD 1 []) with
      | [ip, portStr] =>
        match stoiModel portStr with
        | none => .stoiThrow
        | some p => .ok ip p
      | _ => .fatalFormat

/-- Outcome of `SocketSender::AddReceiver`
(socket_communicator.cc:30-55). -/
inductive AddRecvOutcome where
  | fatalNegId
  | fatalFormat
  | stoiThrow
  | ubIndex
  | added (ip : List Char) (port : Int)
deriving DecidableEq

/-- Embedding of `SocketSender::AddReceiver`: fatal on a negative id,
then the shared address parsing; on success the address is recorded for
the id. -/
def socketSenderAddReceiver (addr : List Char) (recvId : Int) : AddRecvOutcome :=
  if recvId < 0 then .fatalNegId
  else match parseAddr addr with
  | .fatalFormat => .fatalFormat
  | .stoiThrow => .stoiThrow
  | .ubIndex => .ubIndex
  | .ok ip p => .added ip p

/-! ### `SocketReceiver::Wait` -/

/-- The environment a `Wait` call runs against: whether `Bind` and
`Listen` succeed, and the results of the successive `Accept` calls. -/
structure WaitEnv where
  bindOk : Bool
  listenOk : Bool
  accepts : List Bool
deriving DecidableEq

/-- Outcome of `SocketReceiver::Wait`: the failed `CHECK_GT` on
`num_sender`, the address-parsing outcomes, the fatal bind/listen
errors, the `return false` taken when a required accept fails (after a
`LOG(WARNING)`), or the successful `return true` carrying the shard
count that was fixed. -/
inductive WaitOutcome where
  | fatalNumSender
  | fatalFormat
  | stoiThrow
  | ubIndex
  | fatalBind
  | fatalListen
  | retFalse
  | retTrue (shards : Nat)
deriving DecidableEq

/-- Whether a `Wait` outcome terminates the process (a `LOG(FATAL)` or
an uncaught exception), as opposed to a value returned to the caller. -/
def waitOutcomeFatal : WaitOutcome → Bool
  | .fatalNumSender => true
  | .fatalFormat => true
  | .stoiThrow => true
  | .ubIndex => true
  | .fatalBind => true
  | .fatalListen => true
  | .retFalse => false
  | .retTrue _ => false

/-- Shard count fixed by `SocketReceiver::Wait`
(socket_communicator.cc:212-218): under `USE_EPOLL` the configured
`max_thread_count_` is replaced by `num_sender_` when it is `0` or
exceeds it; without `USE_EPOLL` it is unconditionally set to
`num_sender_`. -/
def waitShardCount (useEpoll : Bool) (cfg n : Nat) : Nat :=
  if useEpoll then (if cfg = 0 ∨ cfg > n then n else cfg) else n

/-- Index of the first failing `Accept` among the `n` required ones. -/
def firstAcceptFailure (accepts : List Bool) (n : Nat) : Option Nat :=
  (List.range n).find? (fun i => !accepts.getD i false)

/-- Embedding of `SocketReceiver::Wait`
(socket_communicator.cc:189-256): check `num_sender > 0`, parse the
address, fix the shard count, bind (fatal on failure), listen (fatal on
failure), then accept `num_sender` connections, returning `false` as
soon as one accept fails. -/
def socketReceiverWait (useEpoll : Bool) (cfg : Nat) (addr : List Char)
    (numSender : Int) (env : WaitEnv) : WaitOutcome :=
  if ¬numSender > 0 then .fatalNumSender
  else match parseAddr addr with
  | .fatalFormat => .fatalFormat
  | .stoiThrow => .stoiThrow
  | .ubIndex => .ubIndex
  | .ok _ _ =>
    if ¬env.bindOk then .fatalBind
    else if ¬env.listenOk then .fatalListen
    else match firstAcceptFailure env.accepts numSender.toNat with
    | some _ => .retFalse
    | none => .retTrue (waitShardCount useEpoll cfg numSender.toNat)

/-! ### Per-peer message queues and `SocketReceiver::Recv` -/

/-- A message as seen on the receiver side: the decoded length field
and the payload buffer. -/
structure RMsg where
  size : Int
  data : List Nat
deriving DecidableEq

/-- The queue status codes observed by `Recv`. -/
inductive QStatus where
  | removeSuccess
  | queueEmpty
  | queueClose
deriving DecidableEq

/-- A per-peer queue: its backlog and whether the finished signal has
been recorded. -/
structure QState where
  items : List RMsg
  finished : Bool
deriving DecidableEq

/-- Modelled from the spec: `MessageQueue::Remove` in non-blocking mode
(`src/rpc/network/msg_queue.cc`, not under `src/`): pop the oldest item
when one is present; on an empty queue return `QUEUE_CLOSE` when the
finished signal has been seen, and `QUEUE_EMPTY` otherwise. -/
def removeNB (q : QState) : QStatus × Option RMsg × QState :=
  match q.items with
  | m :: rest => (.removeSuccess, some m, ⟨rest, q.finished⟩)
  | [] => if q.finished then (.queueClose, none, q) else (.queueEmpty, none, q)

/-- The status `Remove(msg, false)` would return for the queue at
position `i` of the queue table. -/
def qstatAt (qs : List (Nat × QState)) (i : Nat) : QStatus :=
  (removeNB (qs.getD i (0, ⟨[], false⟩)).2).1

/-- The inner scan of `SocketReceiver::Recv`
(socket_communicator.cc:265-274): advance from position `i` to the end
of the queue table, skipping queues whose non-blocking `Remove` says
`QUEUE_EMPTY`, and report the first position with any other status.
Fuel-driven (`fuel = table length` suffices). -/
def scanFrom (qs : List (Nat × QState)) : Nat → Nat → Option Nat
  | 0, _ => none
  | fuel + 1, i =>
      if i < qs.length then
        if qstatAt qs i = .queueEmpty then scanFrom qs fuel (i + 1) else some i
      else none

/-- Outcome of `SocketReceiver::Recv`: blocked on the counting
semaphore (`queue_sem_.Wait()` with no pending signal), spinning
forever because every queue stays `QUEUE_EMPTY`, or a result carrying
the sender id, the queue status, the removed message, the advanced
cursor, the updated queue table and the decremented semaphore. -/
inductive RecvOut where
  | blockedSem
  | diverged
  | got (senderId : Nat) (code : QStatus) (msg : Option RMsg) (cursor : Nat)
      (queues : List (Nat × QState)) (sem : Nat)
deriving DecidableEq

/-- Build the `Recv` result for the queue at position `i`. -/
def recvAt (qs : List (Nat × QState)) (sem i : Nat) : RecvOut :=
  let e := qs.getD i (0, ⟨[], false⟩)
  let r := removeNB e.2
  .got e.1 r.1 r.2.1 (i + 1) (qs.set i (e.1, r.2.2)) (sem - 1)

/-- Embedding of `SocketReceiver::Recv`
(socket_communicator.cc:258-277): consume one unit of the shared
counting semaphore, then scan the queue table from the persisted cursor
to the end, wrapping to the beginning, and return at the first queue
whose non-blocking `Remove` is not `QUEUE_EMPTY`, advancing the cursor
one past it. -/
def socketReceiverRecv (sem : Nat) (qs : List (Nat × QState)) (cursor : Nat) :
    RecvOut :=
  if sem = 0 then .blockedSem
  else match scanFrom qs qs.length cursor with
  | some i => recvAt qs sem i
  | none =>
    match scanFrom qs qs.length 0 with
    | some i => recvAt qs sem i
    | none => .diverged

/-! ### `SocketReceiver::RecvLoop` -/

/-- Modelled from the spec: the per-connection `RecvContext`
(`socket_communicator.h`, not under `src/`) starts awaiting a new frame
header (`expectedSize` sentinel `-1`, no bytes accumulated). -/
structure RecvCtx where
  dataSize : Int := -1
  receivedBytes : Int := 0
  buffer : List Nat := []
deriving DecidableEq

/-- The shard-local state one `RecvLoop` iteration acts on: the socket
ids still monitored by the `SocketPool`, each sender's pending inbound
bytes, the per-sender receive contexts, the per-sender queues (their
backlogs), the set of senders whose queue reports
`EmptyAndNoMoreAdd()`, and the shared counting semaphore. -/
structure RLState where
  pool : List Nat
  wires : List (Nat × List Nat)
  ctxs : List (Nat × RecvCtx)
  queues : List (Nat × List RMsg)
  finished : List Nat
  sem : Nat
deriving DecidableEq

/-- The oracle for one `RecvLoop` iteration: the sender id the
multiplexer reports ready, and the socket read results granted to the
`RecvDataSize` and `RecvData` calls of this iteration. -/
structure RLIter where
  senderId : Nat
  sizeEvents : List RecvEvent
  dataEvents : List RecvEvent
deriving DecidableEq

/-- Result of one `RecvLoop` iteration: the loop continuing with an
updated state, the `return` statements terminating the thread, the
blocking `RecvDataSize` call never returning within this iteration's
oracle, or an id the multiplexer reported that the shard does not
own. -/
inductive RLStep where
  | continueLoop (st : RLState)
  | terminated (st : RLState)
  | blockedInSize (st : RLState)
  | badState
deriving DecidableEq

/-- Association-list lookup on sender ids. -/
def alookup {α : Type} (l : List (Nat × α)) (k : Nat) : Option α :=
  (l.find? (fun p => p.1 == k)).map (fun p => p.2)

/-- Association-list update on sender ids. -/
def aset {α : Type} (l : List (Nat × α)) (k : Nat) (v : α) : List (Nat × α) :=
  l.map (fun p => if p.1 == k then (k, v) else p)

/-- Embedding of one iteration of `SocketReceiver::RecvLoop`
(socket_communicator.cc:361-414).  The body: if the ready sender's
queue is finished-and-empty, remove its socket (terminating when none
remain); otherwise, when the context awaits a header, call
`RecvDataSize` — a positive length allocates a fresh buffer and zeroes
the byte counter, a zero length removes the socket (terminating when
none remain); then, falling through, call `RecvData`, and push a
message plus one semaphore post when `received_bytes >= data_size`,
resetting only `data_size` to `-1`. -/
def recvLoopStep (st : RLState) (it : RLIter) : RLStep :=
  let sid := it.senderId
  if st.finished.contains sid then
    let pool1 := st.pool.erase sid
    if pool1.length = 0 then .terminated { st with pool := pool1 }
    else .continueLoop { st with pool := pool1 }
  else
    match alookup st.ctxs sid, alookup st.wires sid with
    | some ctx, some wire =>
      let headerStep : Option (RecvCtx × List Nat × List Nat × Bool) :=
        if ctx.dataSize = -1 then
          match recvDataSizeAux it.sizeEvents wire [] with
          | (.stuck _, _) => none
          | (.notReady, w1) => some ({ ctx with dataSize := -1 }, w1, st.pool, false)
          | (.value bs, w1) =>
            let ds := decodeInt64 bs
            if ds > 0 then some (⟨ds, 0, []⟩, w1, st.pool, false)
            else if ds = 0 then
              let pool1 := st.pool.erase sid
              some ({ ctx with dataSize := 0 }, w1, pool1, pool1.length == 0)
            else some ({ ctx with dataSize := ds }, w1, st.pool, false)
        else some (ctx, wire, st.pool, false)
      match headerStep with
      | none => .blockedInSize st
      | some (ctx1, wire1, pool1, exitNow) =>
        if exitNow then
          .terminated
            { st with
              pool := pool1
              wires := aset st.wires sid wire1
              ctxs := aset st.ctxs sid ctx1 }
        else
          let rd := recvDataAux it.dataEvents wire1 ctx1.dataSize ctx1.buffer
            ctx1.receivedBytes
          let ctx2 : RecvCtx := { ctx1 with buffer := rd.1, receivedBytes := rd.2.1 }
          if ctx2.receivedBytes ≥ ctx2.dataSize then
            .continueLoop
              { st with
                pool := pool1
                wires := aset st.wires sid rd.2.2
                ctxs := aset st.ctxs sid { ctx2 with dataSize := -1 }
                queues := aset st.queues sid
                  ((alookup st.queues sid).getD [] ++ [⟨ctx2.dataSize, ctx2.buffer⟩])
                sem := st.sem + 1 }
          else
            .continueLoop
              { st with
                pool := pool1
                wires := aset st.wires sid rd.2.2
                ctxs := aset st.ctxs sid ctx2 }
    | _, _ => .badState

/-! ### Concrete inputs used by the closed theorems -/

/-- Action list of any phase outcome. -/
def phaseActs : PhaseOut → List Act
  | .fatalStop a => a
  | .starved a _ => a
  | .done a _ => a

/-- Spec-side well-formedness of an address: the split on the double
slash yields exactly the scheme piece and one further segment, and that
segment splits on the colon into exactly two pieces. -/
def addrSplitOk (addr : List Char) : Bool :=
  let ss := splitFull ['/', '/'] addr
  ss.length == 2 && ss.getD 0 [] == socketScheme &&
    (splitFull [':'] (ss.getD 1 [])).length == 2

/-- The host piece of an address (meaningful when `addrSplitOk`). -/
def addrIpStr (addr : List Char) : List Char :=
  (splitFull [':'] ((splitFull ['/', '/'] addr).getD 1 [])).getD 0 []

/-- The port piece of an address (meaningful when `addrSplitOk`). -/
def addrPortStr (addr : List Char) : List Char :=
  (splitFull [':'] ((splitFull ['/', '/'] addr).getD 1 [])).getD 1 []

/-- The address `socket://127.0.0.1:50051`. -/
def sampleAddr : List Char :=
  ['s', 'o', 'c', 'k', 'e', 't', ':', '/', '/',
   '1', '2', '7', '.', '0', '.', '0', '.', '1', ':', '5', '0', '0', '5', '1']

/-- The address `socket://127.0.0.1:50051abc`: a malformed port with a
numeric prefix and trailing junk. -/
def junkPortAddr : List Char := sampleAddr ++ ['a', 'b', 'c']

/-- Shard state for the C1 scenario: one `RecvLoop` thread owning the
sockets of senders `0` and `1`; sender `0`'s socket has exactly the
eight bytes of a zero length field pending; both contexts are fresh,
both queues empty, the semaphore at `0`. -/
def c1State : RLState :=
  ⟨[0, 1], [(0, int64Bytes 0), (1, [])], [(0, {}), (1, {})],
    [(0, []), (1, [])], [], 0⟩

/-- The C1 iteration: the multiplexer reports sender `0` ready and one
read attempt delivers all eight header bytes. -/
def c1Iter : RLIter := ⟨0, [.got 8], []⟩

/-- The state the C1 iteration produces. -/
def c1State' : RLState :=
  ⟨[1], [(0, []), (1, [])], [(0, {}), (1, {})],
    [(0, [⟨0, []⟩]), (1, [])], [], 1⟩

/-! ## Lemmas about the send phases -/

theorem writtenBytes_append (a b : List Act) :
    writtenBytes (a ++ b) = writtenBytes a ++ writtenBytes b := by
  simp [writtenBytes]

theorem sendBytesLoop_done (evs : List SendEvent) :
    ∀ (p : List Nat) (a : List Act) (r : List SendEvent),
      sendBytesLoop evs p = .done a r →
      writtenBytes a = p ∧ a.count Act.dealloc = 0 := by
  induction evs with
  | nil =>
    intro p a r h
    cases p with
    | nil =>
      simp [sendBytesLoop] at h
      obtain ⟨ha, hr⟩ := h
      subst ha
      simp [writtenBytes]
    | cons q qs => simp [sendBytesLoop] at h
  | cons e evs ih =>
    intro p a r h
    cases p with
    | nil =>
      simp [sendBytesLoop] at h
      obtain ⟨ha, hr⟩ := h
      subst ha
      simp [writtenBytes]
    | cons q qs =>
      cases e with
      | err => simp [sendBytesLoop] at h
      | sent t =>
        simp only [sendBytesLoop] at h
        cases hrec : sendBytesLoop evs ((q :: qs).drop t) with
        | fatalStop a2 => rw [hrec] at h; simp at h
        | starved a2 q2 => rw [hrec] at h; simp at h
        | done a2 r2 =>
          rw [hrec] at h
          simp only [PhaseOut.done.injEq] at h
          obtain ⟨ha, hr⟩ := h
          obtain ⟨ih1, ih2⟩ := ih _ _ _ hrec
          subst ha
          refine ⟨?_, ?_⟩
          · simp [writtenBytes, actBytes] at ih1 ⊢
            rw [ih1, List.take_append_drop]
          · simp [List.count_cons, ih2]

theorem sendBytesLoop_no_dealloc (evs : List SendEvent) :
    ∀ p : List Nat, (phaseActs (sendBytesLoop evs p)).count Act.dealloc = 0 := by
  induction evs with
  | nil => intro p; cases p <;> simp [sendBytesLoop, phaseActs]
  | cons e evs ih =>
    intro p
    cases p with
    | nil => simp [sendBytesLoop, phaseActs]
    | cons q qs =>
      cases e with
      | err => simp [sendBytesLoop, phaseActs]
      | sent t =>
        have h := ih ((q :: qs).drop t)
        simp only [sendBytesLoop]
        cases hrec : sendBytesLoop evs ((q :: qs).drop t) with
        | fatalStop a2 =>
          rw [hrec] at h; simp [phaseActs] at h ⊢; simp [List.count_cons, h]
        | starved a2 q2 =>
          rw [hrec] at h; simp [phaseActs] at h ⊢; simp [List.count_cons, h]
        | done a2 r2 =>
          rw [hrec] at h; simp [phaseActs] at h ⊢; simp [List.count_cons, h]

theorem sendBytesLoop_starved_pending_ne (evs : List SendEvent) :
    ∀ (p : List Nat) (a : List Act) (q : List Nat),
      sendBytesLoop evs p = .starved a q → q ≠ [] := by
  induction evs with
  | nil =>
    intro p a q h
    cases p with
    | nil => simp [sendBytesLoop] at h
    | cons x xs => simp [sendBytesLoop] at h; simp [← h.2]
  | cons e evs ih =>
    intro p a q h
    cases p with
    | nil => simp [sendBytesLoop] at h
    | cons x xs =>
      cases e with
      | err => simp [sendBytesLoop] at h
      | sent t =>
        simp only [sendBytesLoop] at h
        cases hrec : sendBytesLoop evs ((x :: xs).drop t) with
        | fatalStop a2 => rw [hrec] at h; simp at h
        | starved a2 q2 =>
          rw [hrec] at h
          simp only [PhaseOut.starved.injEq] at h
          exact h.2 ▸ ih _ _ _ hrec
        | done a2 r2 => rw [hrec] at h; simp at h

theorem sendBytesLoop_starved_append (evs : List SendEvent) :
    ∀ (post : List SendEvent) (p : List Nat) (a : List Act) (q : List Nat),
      sendBytesLoop evs p = .starved a q →
      sendBytesLoop (evs ++ post) p =
        (match sendBytesLoop post q with
         | .fatalStop b => .fatalStop (a ++ b)
         | .starved b q2 => .starved (a ++ b) q2
         | .done b r => .done (a ++ b) r) := by
  induction evs with
  | nil =>
    intro post p a q h
    cases p with
    | nil => simp [sendBytesLoop] at h
    | cons x xs =>
      simp [sendBytesLoop] at h
      obtain ⟨ha, hq⟩ := h
      subst hq
      cases hpost : sendBytesLoop post (x :: xs) <;> simp [hpost, ← ha]
  | cons e evs ih =>
    intro post p a q h
    cases p with
    | nil => simp [sendBytesLoop] at h
    | cons x xs =>
      cases e with
      | err => simp [sendBytesLoop] at h
      | sent t =>
        simp only [sendBytesLoop] at h
        cases hrec : sendBytesLoop evs ((x :: xs).drop t) with
        | fatalStop a2 => rw [hrec] at h; simp at h
        | starved a2 q2 =>
          rw [hrec] at h
          simp only [PhaseOut.starved.injEq] at h
          obtain ⟨ha, hq⟩ := h
          subst hq
          have hih := ih post _ _ _ hrec
          simp only [List.cons_append, sendBytesLoop, List.append_eq]
          rw [hih]
          cases hpost : sendBytesLoop post q2 <;> simp [hpost, ← ha]
        | done a2 r2 => rw [hrec] at h; simp at h

theorem sendBytesLoop_done_append (evs : List SendEvent) :
    ∀ (post : List SendEvent) (p : List Nat) (a : List Act) (r : List SendEvent),
      sendBytesLoop evs p = .done a r →
      sendBytesLoop (evs ++ post) p = .done a (r ++ post) := by
  induction evs with
  | nil =>
    intro post p a r h
    cases p with
    | nil =>
      simp [sendBytesLoop] at h
      obtain ⟨ha, hr⟩ := h
      subst ha; subst hr
      cases post with
      | nil => simp [sendBytesLoop]
      | cons e es => cases e <;> simp [sendBytesLoop]
    | cons x xs => simp [sendBytesLoop] at h
  | cons e evs ih =>
    intro post p a r h
    cases p with
    | nil =>
      simp [sendBytesLoop] at h
      obtain ⟨ha, hr⟩ := h
      subst ha; subst hr
      cases e <;> simp [sendBytesLoop]
    | cons x xs =>
      cases e with
      | err => simp [sendBytesLoop] at h
      | sent t =>
        simp only [sendBytesLoop] at h
        cases hrec : sendBytesLoop evs ((x :: xs).drop t) with
        | fatalStop a2 => rw [hrec] at h; simp at h
        | starved a2 q2 => rw [hrec] at h; simp at h
        | done a2 r2 =>
          rw [hrec] at h
          simp only [PhaseOut.done.injEq] at h
          obtain ⟨ha, hr⟩ := h
          have hih := ih post _ _ _ hrec
          simp only [List.cons_append, sendBytesLoop, List.append_eq]
          rw [hih]
          simp [← ha, ← hr]

/-- C6: for every `SendCore` call with a message of size `S ≥ 0`, the
full 8-byte length field is written first and then exactly `S` payload
bytes, each phase retrying across arbitrary partial writes until
complete; a socket `Send` returning `-1` at any point is fatal (if the
frame was not already complete, appending an erroring attempt turns the
run fatal); and the deallocator, when non-null, is invoked exactly
once, as the last action, after the full frame has been written — and
never on a fatal or incomplete run. -/
theorem sendCore_frames_then_dealloc :
    ∀ (size : Int) (data : List Nat) (hd : Bool) (evs post : List SendEvent)
      (acts : List Act),
      0 ≤ size → size.toNat ≤ data.length →
      ((sendCore size data hd evs = .ok acts →
          writtenBytes acts = int64Bytes size ++ data.take size.toNat ∧
          (data.take size.toNat).length = size.toNat ∧
          acts.count Act.dealloc = (if hd then 1 else 0) ∧
          (hd = true → acts.getLast? = some Act.dealloc)) ∧
       (sendCore size data hd evs = .fatalStop acts →
          acts.count Act.dealloc = 0) ∧
       (sendCore size data hd evs = .starved acts →
          acts.count Act.dealloc = 0) ∧
       (sendCore size data hd evs = .starved acts →
          sendCore size data hd (evs ++ .err :: post) = .fatalStop acts)) := by
  intro size data hd evs post acts hsz hlen
  refine ⟨?_, ?_, ?_, ?_⟩
  · intro h
    unfold sendCore at h
    split at h
    · simp at h
    · simp at h
    · rename_i a r h1
      split at h
      · simp at h
      · simp at h
      · rename_i b r2 h2
        simp only [SendCoreOut.ok.injEq] at h
        obtain ⟨hw1, hc1⟩ := sendBytesLoop_done _ _ _ _ h1
        obtain ⟨hw2, hc2⟩ := sendBytesLoop_done _ _ _ _ h2
        subst h
        refine ⟨?_, ?_, ?_, ?_⟩
        · rw [writtenBytes_append, writtenBytes_append, hw1, hw2]
          cases hd <;> simp [writtenBytes, actBytes]
        · exact List.length_take_of_le hlen
        · cases hd <;> simp [List.count_append, hc1, hc2]
        · intro hhd
          subst hhd
          simp
  · intro h
    unfold sendCore at h
    split at h
    · rename_i a h1
      simp only [SendCoreOut.fatalStop.injEq] at h
      have hnd := sendBytesLoop_no_dealloc evs (int64Bytes size)
      rw [h1] at hnd
      simp only [phaseActs] at hnd
      exact h ▸ hnd
    · simp at h
    · rename_i a r h1
      split at h
      · rename_i b h2
        simp only [SendCoreOut.fatalStop.injEq] at h
        obtain ⟨hw1, hc1⟩ := sendBytesLoop_done _ _ _ _ h1
        have hnd := sendBytesLoop_no_dealloc r (data.take size.toNat)
        rw [h2] at hnd
        simp only [phaseActs] at hnd
        subst h
        simp [List.count_append, hc1, hnd]
      · simp at h
      · simp at h
  · intro h
    unfold sendCore at h
    split at h
    · simp at h
    · rename_i a q h1
      simp only [SendCoreOut.starved.injEq] at h
      have hnd := sendBytesLoop_no_dealloc evs (int64Bytes size)
      rw [h1] at hnd
      simp only [phaseActs] at hnd
      exact h ▸ hnd
    · rename_i a r h1
      split at h
      · simp at h
      · rename_i b q h2
        simp only [SendCoreOut.starved.injEq] at h
        obtain ⟨hw1, hc1⟩ := sendBytesLoop_done _ _ _ _ h1
        have hnd := sendBytesLoop_no_dealloc r (data.take size.toNat)
        rw [h2] at hnd
        simp only [phaseActs] at hnd
        subst h
        simp [List.count_append, hc1, hnd]
      · simp at h
  · intro h
    unfold sendCore at h ⊢
    split at h
    · simp at h
    · rename_i a q h1
      simp only [SendCoreOut.starved.injEq] at h
      have hne := sendBytesLoop_starved_pending_ne _ _ _ _ h1
      have happ := sendBytesLoop_starved_append _ (.err :: post) _ _ _ h1
      rw [happ]
      cases q with
      | nil => exact absurd rfl hne
      | cons q0 qs =>
        simp only [sendBytesLoop]
        simp [← h]
    · rename_i a r h1
      split at h
      · simp at h
      · rename_i b q h2
        simp only [SendCoreOut.starved.injEq] at h
        have hne := sendBytesLoop_starved_pending_ne _ _ _ _ h2
        have happ1 := sendBytesLoop_done_append _ (.err :: post) _ _ _ h1
        have happ2 := sendBytesLoop_starved_append _ (.err :: post) _ _ _ h2
        split
        · rename_i a2 hh
          rw [happ1] at hh
          simp at hh
        · rename_i a2 q2 hh
          rw [happ1] at hh
          simp at hh
        · rename_i a2 r3 hh
          rw [happ1] at hh
          simp only [PhaseOut.done.injEq] at hh
          obtain ⟨ha2, hr3⟩ := hh
          rw [← hr3, happ2]
          cases q with
          | nil => exact absurd rfl hne
          | cons q0 qs =>
            simp only [sendBytesLoop]
            simp [← h, ← ha2]
      · simp at h

/-- Witness for C6 at a concrete 2-byte message sent with partial
writes: header in one write, payload in two. -/
theorem sendCore_frames_then_dealloc_witness :
    sendCore 2 [10, 20] true [.sent 8, .sent 1, .sent 1] =
      .ok [.write [2, 0, 0, 0, 0, 0, 0, 0], .write [10], .write [20], .dealloc] ∧
    writtenBytes [.write [2, 0, 0, 0, 0, 0, 0, 0], .write [10], .write [20],
      Act.dealloc] = int64Bytes 2 ++ ([10, 20] : List Nat).take (2 : Int).toNat ∧
    (([10, 20] : List Nat).take (2 : Int).toNat).length = (2 : Int).toNat ∧
    List.count Act.dealloc [.write [2, 0, 0, 0, 0, 0, 0, 0], .write [10],
      .write [20], .dealloc] = (if true then 1 else 0) := by
  have hok : sendCore 2 [10, 20] true [.sent 8, .sent 1, .sent 1] =
      .ok [.write [2, 0, 0, 0, 0, 0, 0, 0], .write [10], .write [20], .dealloc] := by
    decide
  have hmain := (sendCore_frames_then_dealloc 2 [10, 20] true
    [.sent 8, .sent 1, .sent 1] [] [.write [2, 0, 0, 0, 0, 0, 0, 0], .write [10],
    .write [20], .dealloc] (by decide) (by decide)).1 hok
  exact ⟨hok, hmain.1, hmain.2.1, hmain.2.2.1⟩

/-! ## Lemmas about `RecvDataSize` -/

theorem countGot_nothing (r : List RecvEvent) :
    countGot (.nothing :: r) = countGot r := by
  simp [countGot]

theorem countGot_got (t : Nat) (r : List RecvEvent) :
    countGot (.got t :: r) = countGot r + 1 := by
  simp [countGot]

theorem take_chunk_assemble (wire : List Nat) (L d : Nat) (hd : d ≤ 8 - L) :
    wire.take d ++ (wire.drop d).take (8 - (L + (wire.take d).length)) =
      wire.take (8 - L) := by
  by_cases hw : wire.length ≤ d
  · rw [List.take_of_length_le hw, List.drop_eq_nil_of_le hw]
    simp [List.take_of_length_le (le_trans hw (le_trans hd (Nat.le_refl _)))]
  · have hlen : (wire.take d).length = d := by
      rw [List.length_take]; omega
    rw [hlen]
    have h1 : 8 - L = d + (8 - (L + d)) := by omega
    rw [h1, List.take_add]

theorem rds_acc_ne_notReady (evs : List RecvEvent) :
    ∀ (wire acc : List Nat), acc ≠ [] →
      (recvDataSizeAux evs wire acc).1 ≠ .notReady := by
  induction evs with
  | nil =>
    intro wire acc hacc
    by_cases h8 : 8 ≤ acc.length <;> simp [recvDataSizeAux, h8]
  | cons e rest ih =>
    intro wire acc hacc
    cases e with
    | nothing =>
      by_cases h8 : 8 ≤ acc.length
      · simp [recvDataSizeAux, h8]
      · have hlen : ¬acc.length = 0 := by
          simpa [List.length_eq_zero] using hacc
        simpa [recvDataSizeAux, h8, hlen] using ih wire acc hacc
    | got t =>
      by_cases h8 : 8 ≤ acc.length
      · simp [recvDataSizeAux, h8]
      · simpa [recvDataSizeAux, h8] using
          ih _ _ (by simp [hacc])

theorem rds_value_content (evs : List RecvEvent) :
    ∀ (wire acc a w : List Nat),
      recvDataSizeAux evs wire acc = (.value a, w) →
      a = acc ++ wire.take (8 - acc.length) := by
  induction evs with
  | nil =>
    intro wire acc a w h
    by_cases h8 : 8 ≤ acc.length
    · simp [recvDataSizeAux, h8] at h
      have hz : 8 - acc.length = 0 := by omega
      simp [hz, ← h.1]
    · simp [recvDataSizeAux, h8] at h
  | cons e rest ih =>
    intro wire acc a w h
    cases e with
    | nothing =>
      by_cases h8 : 8 ≤ acc.length
      · simp [recvDataSizeAux, h8] at h
        have hz : 8 - acc.length = 0 := by omega
        simp [hz, ← h.1]
      · by_cases h0 : acc.length = 0
        · simp [recvDataSizeAux, h8, h0] at h
        · simp only [recvDataSizeAux, if_neg h8, if_neg h0] at h
          exact ih _ _ _ _ h
    | got t =>
      by_cases h8 : 8 ≤ acc.length
      · simp [recvDataSizeAux, h8] at h
        have hz : 8 - acc.length = 0 := by omega
        simp [hz, ← h.1]
      · simp only [recvDataSizeAux, if_neg h8] at h
        have hih := ih _ _ _ _ h
        rw [hih, List.append_assoc]
        congr 1
        rw [List.length_append]
        exact take_chunk_assemble wire acc.length (min t (8 - acc.length))
          (min_le_right _ _)

theorem rds_completes (evs : List RecvEvent) :
    ∀ (wire acc : List Nat),
      wfRecvEvents evs = true →
      (acc ≠ [] ∨ ∃ t rest, evs = .got t :: rest) →
      8 ≤ acc.length + countGot evs →
      8 - acc.length ≤ wire.length →
      (recvDataSizeAux evs wire acc).1 = .value (acc ++ wire.take (8 - acc.length)) := by
  induction evs with
  | nil =>
    intro wire acc _ _ hcount _
    simp [countGot] at hcount
    have hz : 8 - acc.length = 0 := by omega
    simp [recvDataSizeAux, hcount, hz]
  | cons e rest ih =>
    intro wire acc hwf hdisj hcount hwire
    cases e with
    | nothing =>
      have hacc : acc ≠ [] := by
        rcases hdisj with h | ⟨t, r, hh⟩
        · exact h
        · simp at hh
      by_cases h8 : 8 ≤ acc.length
      · have hz : 8 - acc.length = 0 := by omega
        simp [recvDataSizeAux, h8, hz]
      · have hlen : ¬acc.length = 0 := by
          simpa [List.length_eq_zero] using hacc
        simp only [recvDataSizeAux, if_neg h8, if_neg hlen]
        refine ih wire acc ?_ (Or.inl hacc) ?_ hwire
        · simpa [wfRecvEvents] using hwf
        · rwa [countGot_nothing] at hcount
    | got t =>
      have ht : t ≠ 0 := by
        simp [wfRecvEvents] at hwf
        simpa using hwf.1
      have hwfr : wfRecvEvents rest = true := by
        simp [wfRecvEvents] at hwf ⊢
        exact hwf.2
      by_cases h8 : 8 ≤ acc.length
      · have hz : 8 - acc.length = 0 := by omega
        simp [recvDataSizeAux, h8, hz]
      · simp only [recvDataSizeAux, if_neg h8]
        have hd1 : 1 ≤ min t (8 - acc.length) := by omega
        have hdle : min t (8 - acc.length) ≤ 8 - acc.length := min_le_right _ _
        have htk : (wire.take (min t (8 - acc.length))).length =
            min t (8 - acc.length) := by
          rw [List.length_take]; omega
        have hne : acc ++ wire.take (min t (8 - acc.length)) ≠ [] := by
          intro hcon
          have := congrArg List.length hcon
          simp [htk] at this
          omega
        have hih := ih (wire.drop (min t (8 - acc.length)))
          (acc ++ wire.take (min t (8 - acc.length))) hwfr (Or.inl hne) ?_ ?_
        · rw [hih, List.append_assoc]
          congr 2
          rw [List.length_append]
          exact take_chunk_assemble wire acc.length (min t (8 - acc.length))
            (min_le_right _ _)
        · rw [countGot_got] at hcount
          rw [List.length_append, htk]
          omega
        · rw [List.length_drop, List.length_append, htk]
          omega

/-- C5: `RecvDataSize` returns `-1` if and only if the very first read
attempt yields nothing; once any header bytes have arrived it retries
through later empty attempts until all eight bytes are accumulated, and
then returns the value decoded from exactly those eight bytes, never an
intermediate partial result.  Stated over any well-formed read oracle
and any wire carrying at least one full length field. -/
theorem recvDataSize_spec :
    ∀ (evs : List RecvEvent) (wire : List Nat) (res : RDSRun) (w bs : List Nat),
      wfRecvEvents evs = true → 8 ≤ wire.length →
      recvDataSize evs wire = (res, w) →
      ((res = .notReady ↔ evs.head? = some .nothing) ∧
       (res = .value bs →
         bs = wire.take 8 ∧ bs.length = 8 ∧ decodeInt64 bs = decodeInt64 (wire.take 8)) ∧
       (evs.head? ≠ some .nothing → 8 ≤ countGot evs → res = .value (wire.take 8))) := by
  intro evs wire res w bs hwf hw8 h
  refine ⟨⟨?_, ?_⟩, ?_, ?_⟩
  · intro hres
    rw [hres] at h
    cases evs with
    | nil => simp [recvDataSize, recvDataSizeAux] at h
    | cons e rest =>
      cases e with
      | nothing => simp
      | got t =>
        have ht : t ≠ 0 := by
          simp [wfRecvEvents] at hwf
          simpa using hwf.1
        have hne : wire.take (min t 8) ≠ [] := by
          intro hcon
          have hlen := congrArg List.length hcon
          rw [List.length_take] at hlen
          simp only [List.length_nil] at hlen
          omega
        have hnr := rds_acc_ne_notReady rest (wire.drop (min t 8))
          ([] ++ wire.take (min t 8)) (by simpa using hne)
        simp only [recvDataSize, recvDataSizeAux, List.length_nil] at h
        norm_num at h
        exact absurd (congrArg Prod.fst h) (by simpa using hnr)
  · intro hhead
    cases evs with
    | nil => simp at hhead
    | cons e rest =>
      cases e with
      | got t => simp at hhead
      | nothing =>
        simp [recvDataSize, recvDataSizeAux] at h
        exact h.1.symm
  · intro hres
    rw [hres] at h
    have hc := rds_value_content evs wire [] bs w (by simpa [recvDataSize] using h)
    simp at hc
    refine ⟨hc, ?_, by rw [hc]⟩
    rw [hc, List.length_take]
    omega
  · intro hhead hcount
    cases evs with
    | nil => simp [countGot] at hcount
    | cons e rest =>
      cases e with
      | nothing => simp at hhead
      | got t =>
        have hcomp := rds_completes (.got t :: rest) wire [] hwf
          (Or.inr ⟨t, rest, rfl⟩) (by simpa using hcount) (by simpa using hw8)
        rw [show recvDataSizeAux (RecvEvent.got t :: rest) wire [] =
          (res, w) from h] at hcomp
        simpa using hcomp

/-- Witness for C5: three bytes arrive, then an empty attempt (retried,
not surfaced as `-1`), then the remaining five bytes. -/
theorem recvDataSize_spec_witness :
    (RDSRun.value [1, 2, 3, 4, 5, 6, 7, 8] = .notReady ↔
      ([RecvEvent.got 3, .nothing, .got 5] : List RecvEvent).head? =
        some .nothing) ∧
    (RDSRun.value [1, 2, 3, 4, 5, 6, 7, 8] = .value [1, 2, 3, 4, 5, 6, 7, 8] →
      ([1, 2, 3, 4, 5, 6, 7, 8] : List Nat) =
        ([1, 2, 3, 4, 5, 6, 7, 8, 9] : List Nat).take 8 ∧
      ([1, 2, 3, 4, 5, 6, 7, 8] : List Nat).length = 8 ∧
      decodeInt64 [1, 2, 3, 4, 5, 6, 7, 8] =
        decodeInt64 (([1, 2, 3, 4, 5, 6, 7, 8, 9] : List Nat).take 8)) ∧
    (([RecvEvent.got 3, .nothing, .got 5] : List RecvEvent).head? ≠
        some .nothing →
      8 ≤ countGot [RecvEvent.got 3, .nothing, .got 5] →
      RDSRun.value [1, 2, 3, 4, 5, 6, 7, 8] =
        .value (([1, 2, 3, 4, 5, 6, 7, 8, 9] : List Nat).take 8)) := by
  exact recvDataSize_spec [RecvEvent.got 3, .nothing, .got 5]
    [1, 2, 3, 4, 5, 6, 7, 8, 9] (.value [1, 2, 3, 4, 5, 6, 7, 8]) [9]
    [1, 2, 3, 4, 5, 6, 7, 8] (by decide) (by decide) (by decide)

/-! ## `SendLoop` -/

/-- C4: a `SendLoop` run over any backlog of removed messages followed
by `QUEUE_CLOSE` sends each message only to the socket of its tagged
`receiver_id`, in order; on `QUEUE_CLOSE` it sends exactly one
zero-length end-of-stream frame to every socket owned by the shard and
terminates, ignoring anything after the close signal. -/
theorem sendLoop_per_receiver_then_broadcast :
    ∀ (socks : List Nat) (pre : List SMsg) (rest : List SLEvent),
      (∀ m ∈ pre, socks.contains m.receiverId = true) →
      (sendLoop socks (pre.map SLEvent.msg ++ SLEvent.close :: rest) =
        (pre.map (fun m => (m.receiverId, m.size, m.data.take m.size.toNat)) ++
          socks.map (fun s => (s, (0 : Int), ([] : List Nat))),
         SLEnd.terminated)) ∧
      (socks.Nodup → ∀ s ∈ socks,
        ((socks.map (fun x => (x, (0 : Int), ([] : List Nat)))).filter
          (fun p => p.1 == s)).length = 1) := by
  intro socks pre rest hreg
  constructor
  · induction pre with
    | nil => simp [sendLoop]
    | cons m pre ih =>
      have hm : socks.contains m.receiverId = true := hreg m (by simp)
      have hih := ih (fun m2 hm2 => hreg m2 (by simp [hm2]))
      simp only [List.map_cons, List.cons_append, sendLoop, hm, if_true,
        List.append_eq]
      rw [hih]
  · intro hnd s hs
    have hcnt : ∀ (l : List Nat),
        ((l.map (fun x => (x, (0 : Int), ([] : List Nat)))).filter
          (fun p => p.1 == s)).length = l.count s := by
      intro l
      induction l with
      | nil => simp
      | cons x xs ih =>
        by_cases hx : x = s
        · subst hx
          simp [List.count_cons, ih]
        · simp [List.count_cons, ih, hx, Ne.symm hx]
    rw [hcnt]
    exact List.count_eq_one_of_mem hnd hs

/-- Witness for C4: a shard owning sockets `0` and `1`, two queued
messages, then the close signal (with a stray event after it that the
loop never sees). -/
theorem sendLoop_per_receiver_then_broadcast_witness :
    sendLoop [0, 1]
      (([⟨0, 2, [9, 9]⟩, ⟨1, 1, [7]⟩] : List SMsg).map SLEvent.msg ++
        SLEvent.close :: [SLEvent.close]) =
      (([⟨0, 2, [9, 9]⟩, ⟨1, 1, [7]⟩] : List SMsg).map
          (fun m => (m.receiverId, m.size, m.data.take m.size.toNat)) ++
        ([0, 1] : List Nat).map (fun s => (s, (0 : Int), ([] : List Nat))),
       SLEnd.terminated) ∧
    ((([0, 1] : List Nat).map (fun x => (x, (0 : Int), ([] : List Nat)))).filter
      (fun p => p.1 == 0)).length = 1 := by
  have hmain := sendLoop_per_receiver_then_broadcast [0, 1]
    [⟨0, 2, [9, 9]⟩, ⟨1, 1, [7]⟩] [SLEvent.close] (by decide)
  exact ⟨hmain.1, hmain.2 (by decide) 0 (by decide)⟩

/-! ## Lemmas about the `Recv` scan -/

theorem scanFrom_some (qs : List (Nat × QState)) :
    ∀ (fuel i k : Nat), scanFrom qs fuel i = some k →
      i ≤ k ∧ k < qs.length ∧ qstatAt qs k ≠ .queueEmpty ∧
        ∀ j, i ≤ j → j < k → qstatAt qs j = .queueEmpty := by
  intro fuel
  induction fuel with
  | zero => intro i k h; simp [scanFrom] at h
  | succ fuel ih =>
    intro i k h
    simp only [scanFrom] at h
    by_cases hi : i < qs.length
    · rw [if_pos hi] at h
      by_cases he : qstatAt qs i = .queueEmpty
      · rw [if_pos he] at h
        obtain ⟨h1, h2, h3, h4⟩ := ih (i + 1) k h
        refine ⟨by omega, h2, h3, ?_⟩
        intro j hj1 hj2
        rcases Nat.eq_or_lt_of_le hj1 with rfl | hlt
        · exact he
        · exact h4 j hlt hj2
      · rw [if_neg he] at h
        obtain rfl : i = k := by injection h
        exact ⟨Nat.le_refl _, hi, he, fun j hj1 hj2 => absurd (lt_of_le_of_lt hj1 hj2) (lt_irrefl _)⟩
    · rw [if_neg hi] at h
      simp at h

theorem scanFrom_none (qs : List (Nat × QState)) :
    ∀ (fuel i : Nat), qs.length ≤ fuel + i → scanFrom qs fuel i = none →
      ∀ j, i ≤ j → j < qs.length → qstatAt qs j = .queueEmpty := by
  intro fuel
  induction fuel with
  | zero =>
    intro i hle _ j hj1 hj2
    omega
  | succ fuel ih =>
    intro i hle h j hj1 hj2
    simp only [scanFrom] at h
    by_cases hi : i < qs.length
    · rw [if_pos hi] at h
      by_cases he : qstatAt qs i = .queueEmpty
      · rw [if_pos he] at h
        rcases Nat.eq_or_lt_of_le hj1 with rfl | hlt
        · exact he
        · exact ih (i + 1) (by omega) h j hlt hj2
      · rw [if_neg he] at h
        simp at h
    · omega

/-- C7: after the counting semaphore is consumed, `Recv` scans the
queue table from the persisted cursor, skipping every queue whose
non-blocking `Remove` reports `QUEUE_EMPTY` and wrapping to the
beginning at the end of the table; the first queue with any other
status supplies the returned status, message and sender id, and the
cursor is advanced one past that queue.  Whenever some queue is
non-empty the call neither blocks further nor spins forever. -/
theorem socketReceiverRecv_round_robin :
    ∀ (sem : Nat) (qs : List (Nat × QState)) (cursor sid : Nat)
      (code : QStatus) (m : Option RMsg) (cur : Nat)
      (qs2 : List (Nat × QState)) (sem2 : Nat),
      0 < sem → cursor ≤ qs.length →
      ((socketReceiverRecv sem qs cursor = .got sid code m cur qs2 sem2 →
        sem2 = sem - 1 ∧
        ∃ i, i < qs.length ∧ cur = i + 1 ∧
          sid = (qs.getD i (0, ⟨[], false⟩)).1 ∧
          code = (removeNB (qs.getD i (0, ⟨[], false⟩)).2).1 ∧
          code ≠ .queueEmpty ∧
          m = (removeNB (qs.getD i (0, ⟨[], false⟩)).2).2.1 ∧
          qs2 = qs.set i (sid, (removeNB (qs.getD i (0, ⟨[], false⟩)).2).2.2) ∧
          ((cursor ≤ i ∧ ∀ j, cursor ≤ j → j < i → qstatAt qs j = .queueEmpty) ∨
           ((∀ j, cursor ≤ j → j < qs.length → qstatAt qs j = .queueEmpty) ∧
            ∀ j, j < i → qstatAt qs j = .queueEmpty))) ∧
       ((∃ i, i < qs.length ∧ qstatAt qs i ≠ .queueEmpty) →
        socketReceiverRecv sem qs cursor ≠ .blockedSem ∧
        socketReceiverRecv sem qs cursor ≠ .diverged)) := by
  intro sem qs cursor sid code m cur qs2 sem2 hsem hcur
  have hsem0 : ¬sem = 0 := by omega
  constructor
  · intro h
    unfold socketReceiverRecv at h
    rw [if_neg hsem0] at h
    cases h1 : scanFrom qs qs.length cursor with
    | some i =>
      rw [h1] at h
      obtain ⟨hi1, hi2, hi3, hi4⟩ := scanFrom_some qs _ _ _ h1
      unfold recvAt at h
      simp only [RecvOut.got.injEq] at h
      obtain ⟨hsid, hcode, hm, hcur2, hqs2, hsem2⟩ := h
      refine ⟨hsem2.symm, i, hi2, hcur2.symm, hsid.symm, hcode.symm, ?_, hm.symm, ?_, ?_⟩
      · rw [← hcode]
        exact hi3
      · rw [← hqs2, ← hsid]
      · exact Or.inl ⟨hi1, hi4⟩
    | none =>
      rw [h1] at h
      cases h2 : scanFrom qs qs.length 0 with
      | some i =>
        rw [h2] at h
        obtain ⟨_, hi2, hi3, hi4⟩ := scanFrom_some qs _ _ _ h2
        have hall := scanFrom_none qs _ _ (by omega) h1
        unfold recvAt at h
        simp only [RecvOut.got.injEq] at h
        obtain ⟨hsid, hcode, hm, hcur2, hqs2, hsem2⟩ := h
        refine ⟨hsem2.symm, i, hi2, hcur2.symm, hsid.symm, hcode.symm, ?_, hm.symm, ?_, ?_⟩
        · rw [← hcode]
          exact hi3
        · rw [← hqs2, ← hsid]
        · exact Or.inr ⟨hall, fun j hj => hi4 j (Nat.zero_le _) hj⟩
      | none =>
        rw [h2] at h
        simp at h
  · intro ⟨i, hi, hne⟩
    unfold socketReceiverRecv
    rw [if_neg hsem0]
    cases h1 : scanFrom qs qs.length cursor with
    | some k => simp [recvAt]
    | none =>
      cases h2 : scanFrom qs qs.length 0 with
      | some k => simp [recvAt]
      | none =>
        have hall := scanFrom_none qs _ _ (by omega) h2
        exact absurd (hall i (Nat.zero_le _) hi) hne

/-- Witness for C7: two queues, the one at the cursor empty, the next
holding one message; `Recv` skips the empty queue, returns sender `7`'s
message and advances the cursor to `2`. -/
theorem socketReceiverRecv_round_robin_witness :
    socketReceiverRecv 1 [(3, ⟨[], false⟩), (7, ⟨[⟨5, [1, 2, 3, 4, 5]⟩], false⟩)] 0 =
      .got 7 .removeSuccess (some ⟨5, [1, 2, 3, 4, 5]⟩) 2
        [(3, ⟨[], false⟩), (7, ⟨[], false⟩)] 0 ∧
    (0 : Nat) = 1 - 1 := by
  have happ := socketReceiverRecv_round_robin 1
    [(3, ⟨[], false⟩), (7, ⟨[⟨5, [1, 2, 3, 4, 5]⟩], false⟩)] 0 7
    .removeSuccess (some ⟨5, [1, 2, 3, 4, 5]⟩) 2
    [(3, ⟨[], false⟩), (7, ⟨[], false⟩)] 0 (by decide) (by decide)
  have hgot := happ.1 (by decide)
  exact ⟨by decide, hgot.1⟩

/-! ## `Wait` error handling (C2) -/

/-- Counterexample for C2 as stated: with bind and listen succeeding
and the first required accept failing, `Wait` returns `false` to the
caller — a recoverable return value, not a process-terminating
error. -/
theorem wait_accept_failure_returns_false_cex :
    socketReceiverWait true 0 sampleAddr 2 ⟨true, true, [false, true]⟩ =
      .retFalse ∧
    waitOutcomeFatal .retFalse = false := by decide

/-- C2 amended: a bind failure or a listen failure in `Wait` is fatal,
but a failure of a required accept is logged as a warning and reported
to the caller as a `false` return value (recoverable), not a fatal
error. -/
theorem wait_error_modes :
    ∀ (ue : Bool) (cfg : Nat) (addr : List Char) (ns : Int) (env : WaitEnv)
      (ip : List Char) (p : Int) (i : Nat),
      0 < ns → parseAddr addr = .ok ip p →
      ((env.bindOk = false → socketReceiverWait ue cfg addr ns env = .fatalBind) ∧
       (env.bindOk = true → env.listenOk = false →
         socketReceiverWait ue cfg addr ns env = .fatalListen) ∧
       (env.bindOk = true → env.listenOk = true →
         firstAcceptFailure env.accepts ns.toNat = some i →
         socketReceiverWait ue cfg addr ns env = .retFalse ∧
         waitOutcomeFatal (socketReceiverWait ue cfg addr ns env) = false) ∧
       waitOutcomeFatal .fatalBind = true ∧
       waitOutcomeFatal .fatalListen = true) := by
  intro ue cfg addr ns env ip p i hns hparse
  refine ⟨?_, ?_, ?_, rfl, rfl⟩
  · intro hb
    simp [socketReceiverWait, hparse, hns, hb]
  · intro hb hl
    simp [socketReceiverWait, hparse, hns, hb, hl]
  · intro hb hl hacc
    simp [socketReceiverWait, hparse, hns, hb, hl, hacc, waitOutcomeFatal]

/-- Witness for C2's amended statement: a failing bind is fatal. -/
theorem wait_error_modes_witness :
    socketReceiverWait true 0 sampleAddr 2 ⟨false, true, []⟩ = .fatalBind := by
  exact (wait_error_modes true 0 sampleAddr 2 ⟨false, true, []⟩
    ['1', '2', '7', '.', '0', '.', '0', '.', '1'] 50051 0 (by decide)
    (by decide)).1 rfl

/-! ## `Send` registration (C3) -/

/-- Counterexample for C3 as stated: after a `Connect` with only
receiver `0` registered, `Send` to the unregistered id `7` is not
stopped by any fatal check — the message is enqueued on shard
`7 mod 1 = 0` tagged with receiver `7`. -/
theorem send_unregistered_enqueued_cex :
    socketSenderSend ⟨[0], connectShardCount 0 1⟩ false 5 7 = .enqueued 0 7 ∧
    (7 : Nat) ∉ ([0] : List Nat) := by decide

/-- C3 amended: `Send`'s fatal checks cover only a null payload, a
non-positive size and a negative id; the registered-receiver set is
never consulted, so any non-negative id — registered or not — is
enqueued on shard `recv_id mod max_thread_count_` (and `SendLoop` then
dereferences the null socket that `sockets[receiver_id]` creates for a
missing id). -/
theorem send_validates_only_basics :
    ∀ (ids ids2 : List Nat) (mtc : Nat) (dn : Bool) (size recvId : Int),
      ((socketSenderSend ⟨ids, mtc⟩ dn size recvId =
          socketSenderSend ⟨ids2, mtc⟩ dn size recvId) ∧
       (dn = false → 0 < size → 0 ≤ recvId → 0 < mtc →
         socketSenderSend ⟨ids, mtc⟩ dn size recvId =
           .enqueued (sendQueueShard recvId.toNat mtc) recvId) ∧
       (dn = false → 0 < size → recvId < 0 →
         socketSenderSend ⟨ids, mtc⟩ dn size recvId = .fatalNegId)) := by
  intro ids ids2 mtc dn size recvId
  refine ⟨rfl, ?_, ?_⟩
  · intro h1 h2 h3 h4
    have hmtc : ¬mtc = 0 := by omega
    simp [socketSenderSend, h1, h2, h3, hmtc]
  · intro h1 h2 h3
    have h3' : ¬recvId ≥ 0 := by omega
    simp [socketSenderSend, h1, h2, h3']

/-- Witness for C3's amended statement at the counterexample's
inputs. -/
theorem send_validates_only_basics_witness :
    socketSenderSend ⟨[0], 1⟩ false 5 7 = socketSenderSend ⟨[5], 1⟩ false 5 7 ∧
    socketSenderSend ⟨[0], 1⟩ false 5 7 = .enqueued (sendQueueShard (7 : Int).toNat 1) 7 := by
  exact ⟨(send_validates_only_basics [0] [5] 1 false 5 7).1,
    (send_validates_only_basics [0] [5] 1 false 5 7).2.1 rfl (by decide)
      (by decide) (by decide)⟩

/-! ## Shard counts (C8) -/

/-- Counterexample for C8 as stated: in a build without `USE_EPOLL`,
with one configured thread and two senders, the receiver's shard count
is `2`, not `min 1 2 = 1`. -/
theorem receiver_fallback_shard_count_cex :
    waitShardCount false 1 2 = 2 ∧
    (if (1 : Nat) = 0 then 2 else min 1 2) = 1 ∧
    (2 : Nat) ≠ 1 := by decide

/-- C8 amended: the sender's shard count — and, under `USE_EPOLL`, the
receiver's — is `min(configured, peers)` with a configured `0` meaning
one shard per peer, and a peer's shard is `peerID mod N` on the sender
side (the same `N` and expression for socket ownership in `Connect`
and queue selection in `Send`) and `senderIndex mod N` on the receiver
side; in a build without `USE_EPOLL` the receiver instead always uses
one shard per sender. -/
theorem shard_count_and_assignment :
    ∀ (cfg n i : Nat),
      (connectShardCount cfg n = if cfg = 0 then n else min cfg n) ∧
      (waitShardCount true cfg n = if cfg = 0 then n else min cfg n) ∧
      (waitShardCount false cfg n = n) ∧
      (connectSocketShard i (connectShardCount cfg n) =
        sendQueueShard i (connectShardCount cfg n)) ∧
      (receiverThreadShard i (waitShardCount true cfg n) =
        i % (if cfg = 0 then n else min cfg n)) := by
  intro cfg n i
  have hmin : (if cfg = 0 ∨ cfg > n then n else cfg) =
      if cfg = 0 then n else min cfg n := by
    by_cases h0 : cfg = 0
    · simp [h0]
    · by_cases hk : cfg > n
      · rw [if_pos (Or.inr hk), if_neg h0, Nat.min_def, if_neg (by omega)]
      · rw [if_neg (by simp [h0, hk]), if_neg h0, Nat.min_def, if_pos (by omega)]
  refine ⟨hmin, by simpa [waitShardCount] using hmin, rfl, rfl, ?_⟩
  simp only [receiverThreadShard, waitShardCount, if_pos]
  rw [hmin]

/-! ## The `Send` shard divisor (C10) -/

/-- C10: `Send` computes the shard as `recv_id mod max_thread_count_`
with no guard on the divisor.  After a `Connect` with at least one
registered receiver the divisor is strictly positive, so the modulo is
well-defined; before `Connect` the divisor is the configured default
`0`, and a `Connect` with no registered receivers also leaves it `0`,
making the modulo in `Send` a division by zero (undefined
behaviour). -/
theorem send_shard_divisor :
    ∀ (cfg n : Nat) (st : SenderState) (size recvId : Int),
      ((0 < n → 0 < connectShardCount cfg n) ∧
       connectShardCount cfg 0 = 0 ∧
       defaultMaxThreadCount = 0 ∧
       (st.maxThreadCount = 0 → 0 < size → 0 ≤ recvId →
         socketSenderSend st false size recvId = .modZeroUB) ∧
       (0 < st.maxThreadCount → 0 < size → 0 ≤ recvId →
         socketSenderSend st false size recvId =
           .enqueued (sendQueueShard recvId.toNat st.maxThreadCount) recvId)) := by
  intro cfg n st size recvId
  refine ⟨?_, ?_, rfl, ?_, ?_⟩
  · intro hn
    unfold connectShardCount
    by_cases h : cfg = 0 ∨ cfg > n
    · rw [if_pos h]; omega
    · rw [if_neg h]; omega
  · unfold connectShardCount
    by_cases h : cfg = 0 ∨ cfg > 0
    · rw [if_pos h]
    · rw [if_neg h]; omega
  · intro h0 hsz hid
    simp [socketSenderSend, hsz, hid, h0]
  · intro h0 hsz hid
    have h0' : ¬st.maxThreadCount = 0 := by omega
    simp [socketSenderSend, hsz, hid, h0']

/-- Witness for C10: with three configured threads and two receivers
the divisor is positive; with the pre-`Connect` default `0` a valid
`Send` reaches the modulo-by-zero. -/
theorem send_shard_divisor_witness :
    0 < connectShardCount 3 2 ∧
    socketSenderSend ⟨[], defaultMaxThreadCount⟩ false 1 0 = .modZeroUB := by
  exact ⟨(send_shard_divisor 3 2 ⟨[], 0⟩ 1 0).1 (by decide),
    (send_shard_divisor 3 2 ⟨[], defaultMaxThreadCount⟩ 1 0).2.2.2.1 rfl
      (by decide) (by decide)⟩

/-! ## The zero-length frame in `RecvLoop` (C1) -/

/-- C1 (violated by the code): when a shard still owns another socket,
the branch handling a decoded length of `0` removes the finished
socket but then falls through — there is no `continue` — to `RecvData`
and the `received_bytes >= data_size` test (`0 >= 0`), so a zero-length
`Message` is pushed onto the finished sender's queue and the shared
semaphore is posted for it, after which `Recv`/`RecvFrom` can hand the
zero-length message to application code.  Concretely: in `c1State`
(sockets `0` and `1`, sender `0` delivering a zero length field) one
iteration of `RecvLoop` continues with sender `0`'s queue holding a
`size = 0` message and the semaphore incremented. -/
theorem recvLoop_zero_frame_pushes_empty_message :
    recvLoopStep c1State c1Iter = .continueLoop c1State' ∧
    alookup c1State'.queues 0 = some [⟨0, []⟩] ∧
    c1State'.sem = c1State.sem + 1 ∧
    c1State'.pool = [1] := by decide

/-! ## Address parsing (C9) -/

theorem addrSplitOk_shape (addr : List Char) :
    addrSplitOk addr = true →
    ∃ s1 ip ps, splitFull ['/', '/'] addr = [socketScheme, s1] ∧
      splitFull [':'] s1 = [ip, ps] ∧
      addrIpStr addr = ip ∧ addrPortStr addr = ps := by
  intro h
  unfold addrSplitOk at h
  cases hss : splitFull ['/', '/'] addr with
  | nil => rw [hss] at h; simp at h
  | cons s0 ss =>
    rw [hss] at h
    simp only [Bool.and_eq_true, beq_iff_eq] at h
    obtain ⟨⟨hlen, hs0⟩, hsp⟩ := h
    cases ss with
    | nil => simp at hlen
    | cons s1 ss2 =>
      cases ss2 with
      | cons s2 ss3 => simp at hlen
      | nil =>
        simp only [List.getD_cons_succ, List.getD_cons_zero] at hsp
        cases hsp2 : splitFull [':'] s1 with
        | nil => rw [hsp2] at hsp; simp at hsp
        | cons a tl =>
          cases tl with
          | nil => rw [hsp2] at hsp; simp at hsp
          | cons b tl2 =>
            cases tl2 with
            | cons c tl3 => rw [hsp2] at hsp; simp at hsp
            | nil =>
              simp only [List.getD_cons_zero] at hs0
              refine ⟨s1, a, b, by simp [hss, hs0], hsp2, ?_, ?_⟩
              · simp [addrIpStr, hss, hsp2]
              · simp [addrPortStr, hss, hsp2]

/-- Counterexample for C9 as stated: the address
`socket://127.0.0.1:50051abc` deviates from `socket://<host>:<port>`
(its port is not a number), yet `AddReceiver` accepts it without any
error — `std::stoi` silently parses the numeric prefix `50051`. -/
theorem addr_junk_port_accepted_cex :
    socketSenderAddReceiver junkPortAddr 3 =
      .added ['1', '2', '7', '.', '0', '.', '0', '.', '1'] 50051 ∧
    socketSenderAddReceiver junkPortAddr 3 ≠ .fatalFormat := by decide

/-- C9 amended: a wrong scheme, a wrong number of double-slash
segments, or a wrong number of colon parts in the second segment is a
fatal configuration error with the descriptive message, in both
`AddReceiver` and `Wait` — except that an address whose double-slash
split yields no pieces at all (the empty address, or one made only of
slashes) instead reaches the out-of-bounds `substring[0]` read before
any check (undefined behaviour, not the descriptive error); and the
port is handled by `std::stoi`, so a port with a numeric prefix is
silently accepted with the value of that prefix (trailing junk
ignored), while a port with no numeric prefix aborts via an uncaught
`std::stoi` exception rather than the descriptive error.  The first
and last three conjuncts together cover every address: the split is
either empty (`ubIndex`) or non-empty (`fatalFormat` on any failed
check). -/
theorem parse_addr_error_modes :
    ∀ (addr : List Char) (p : Int) (rid : Int) (ue : Bool) (cfg : Nat)
      (ns : Int) (env : WaitEnv),
      ((splitFull ['/', '/'] addr ≠ [] → addrSplitOk addr = false →
         parseAddr addr = .fatalFormat) ∧
       (addrSplitOk addr = true → stoiModel (addrPortStr addr) = none →
         parseAddr addr = .stoiThrow) ∧
       (addrSplitOk addr = true → stoiModel (addrPortStr addr) = some p →
         parseAddr addr = .ok (addrIpStr addr) p) ∧
       (0 ≤ rid → parseAddr addr = .fatalFormat →
         socketSenderAddReceiver addr rid = .fatalFormat) ∧
       (0 ≤ rid → parseAddr addr = .stoiThrow →
         socketSenderAddReceiver addr rid = .stoiThrow) ∧
       (0 < ns → parseAddr addr = .fatalFormat →
         socketReceiverWait ue cfg addr ns env = .fatalFormat) ∧
       (0 < ns → parseAddr addr = .stoiThrow →
         socketReceiverWait ue cfg addr ns env = .stoiThrow) ∧
       (splitFull ['/', '/'] addr = [] → parseAddr addr = .ubIndex) ∧
       (0 ≤ rid → parseAddr addr = .ubIndex →
         socketSenderAddReceiver addr rid = .ubIndex) ∧
       (0 < ns → parseAddr addr = .ubIndex →
         socketReceiverWait ue cfg addr ns env = .ubIndex)) := by
  intro addr p rid ue cfg ns env
  refine ⟨?_, ?_, ?_, ?_, ?_, ?_, ?_, ?_, ?_, ?_⟩
  · intro hne hbad
    cases hss : splitFull ['/', '/'] addr with
    | nil => exact absurd hss hne
    | cons s0 ss =>
      by_cases hc : s0 ≠ socketScheme ∨ (s0 :: ss).length ≠ 2
      · simp only [parseAddr, hss]
        rw [if_pos hc]
      · push_neg at hc
        obtain ⟨hs0, hlen⟩ := hc
        cases ss with
        | nil => simp at hlen
        | cons s1 ss2 =>
          cases ss2 with
          | cons s2 ss3 => simp at hlen
          | nil =>
            rw [addrSplitOk] at hbad
            rw [hss] at hbad
            simp only [List.getD_cons_succ, List.getD_cons_zero,
              Bool.and_eq_true, beq_iff_eq] at hbad
            cases hsp : splitFull [':'] s1 with
            | nil => simp [parseAddr, hss, hs0, hsp]
            | cons a tl =>
              cases tl with
              | nil => simp [parseAddr, hss, hs0, hsp]
              | cons b tl2 =>
                cases tl2 with
                | cons c tl3 => simp [parseAddr, hss, hs0, hsp]
                | nil =>
                  rw [hsp] at hbad
                  simp [hs0] at hbad
  · intro hok hstoi
    obtain ⟨s1, ip, ps, h1, h2, hip, hps⟩ := addrSplitOk_shape addr hok
    rw [hps] at hstoi
    simp [parseAddr, h1, h2, hstoi]
  · intro hok hstoi
    obtain ⟨s1, ip, ps, h1, h2, hip, hps⟩ := addrSplitOk_shape addr hok
    rw [hps] at hstoi
    simp [parseAddr, h1, h2, hstoi, hip]
  · intro hrid hpf
    simp [socketSenderAddReceiver, hpf, show ¬rid < 0 by omega]
  · intro hrid hpf
    simp [socketSenderAddReceiver, hpf, show ¬rid < 0 by omega]
  · intro hns hpf
    simp [socketReceiverWait, hpf, hns]
  · intro hns hpf
    simp [socketReceiverWait, hpf, hns]
  · intro hss
    simp [parseAddr, hss]
  · intro hrid hpf
    simp [socketSenderAddReceiver, hpf, show ¬rid < 0 by omega]
  · intro hns hpf
    simp [socketReceiverWait, hpf, hns]

/-- Witness for C9's amended statement at the counterexample address:
the checks pass, `stoiModel` accepts the numeric prefix, and the parse
succeeds with port `50051`. -/
theorem parse_addr_error_modes_witness :
    parseAddr junkPortAddr = .ok (addrIpStr junkPortAddr) 50051 := by
  exact (parse_addr_error_modes junkPortAddr 50051 0 true 0 1
    ⟨true, true, []⟩).2.2.1 (by decide) (by decide)

end DglSocket
